import Mathlib

/-!
Verification of the sphere sample-consensus model
(`sample_consensus/include/pcl/sample_consensus/sac_model_sphere.h`).

The header under `src/` declares the model interface and implements
`isModelValid` inline; the remaining member functions are declarations whose
bodies live in an implementation file that is not part of `src/`.  Those
operations are therefore modelled from the specification (their doc comments
say so explicitly).  Numeric values (point coordinates, coefficients, bounds,
thresholds) are embedded as exact rationals; the Euclidean distance and the
radial residual, which involve a square root, live in the reals.  The
executable inlier test `inlierB` is stated in a square-root-free form over the
rationals and is proved (in `inlierB_iff`) to coincide exactly with the
residual test of the specification.
-/

namespace PCLSphere

/-- A 3D point with x, y, z coordinates (spec data model: Point). -/
structure Point3 where
  x : ℚ
  y : ℚ
  z : ℚ
deriving DecidableEq

/-- The default point used to make index lookup total. -/
def point0 : Point3 := ⟨0, 0, 0⟩

instance : Inhabited Point3 := ⟨point0⟩

/-- A projected 3D point; projection onto the sphere surface generally leaves
the rationals, so projected points carry real coordinates. -/
structure PointR where
  x : ℝ
  y : ℝ
  z : ℝ

/-- Sphere model coefficients: center.x, center.y, center.z, radius
(indices 0..3 of the coefficient vector in the source). -/
structure Coeffs where
  cx : ℚ
  cy : ℚ
  cz : ℚ
  radius : ℚ
deriving DecidableEq

/-- The value of std::numeric_limits of double ::max(), DBL_MAX, used by the
source as the sentinel for an unset radius bound. -/
def dblMax : ℚ := 2 ^ 1024 - 2 ^ 971

/-- The sphere model state: the input point set and the configured radius
bounds, where radius_min = -dblMax and radius_max = dblMax mean unset. -/
structure SphereModel where
  input : List Point3
  radius_min : ℚ
  radius_max : ℚ

/-- Squared Euclidean distance from a point to the sphere center. -/
def sqrDist (p : Point3) (c : Coeffs) : ℚ :=
  (p.x - c.cx) ^ 2 + (p.y - c.cy) ^ 2 + (p.z - c.cz) ^ 2

/-- Modelled from the spec: the per-point radial residual
|euclidean_distance(p, center) - radius| (spec 4.2, Distance Evaluator; the
implementation file defining it is not under src/). -/
noncomputable def residual (p : Point3) (c : Coeffs) : ℝ :=
  |Real.sqrt ((sqrDist p c : ℚ) : ℝ) - (c.radius : ℝ)|

/-- Modelled from the spec: the inclusive inlier test residual <= threshold
(spec 4.3), written in the equivalent square-root-free form so that it is
decidable over the rationals; the lemma inlierB_iff proves it equal to the
residual comparison of the specification. -/
def inlierB (p : Point3) (c : Coeffs) (t : ℚ) : Bool :=
  decide (0 ≤ c.radius + t) && decide (sqrDist p c ≤ (c.radius + t) ^ 2) &&
    (decide (c.radius - t ≤ 0) || decide ((c.radius - t) ^ 2 ≤ sqrDist p c))

/-- Modelled from the spec: the scalar counting strategy (declared at
sac_model_sphere.h:244, body not under src/): starting at index i it
processes one point at a time and counts those whose residual is within the
threshold (spec 4.3). -/
def countWithinDistanceStandard (m : SphereModel) (c : Coeffs) (t : ℚ)
    (i : ℕ) : ℕ :=
  (m.input.drop i).countP (fun p => inlierB p c t)

/-- Modelled from the spec: a data-parallel counting strategy of lane width w:
while at least w points remain it processes a block of w points per step, and
finishes with the scalar tail loop (spec 4.3). -/
def countBlocked (m : SphereModel) (c : Coeffs) (t : ℚ) (w : ℕ) (i : ℕ) : ℕ :=
  if h : 0 < w ∧ i + w ≤ m.input.length then
    ((m.input.drop i).take w).countP (fun p => inlierB p c t) +
      countBlocked m c t w (i + w)
  else
    countWithinDistanceStandard m c t i
termination_by m.input.length - i
decreasing_by omega

/-- Modelled from the spec: the SSE strategy (declared at
sac_model_sphere.h:253, body not under src/) processes 4 points per step
using 4-wide vector lanes, then the scalar tail. -/
def countWithinDistanceSSE (m : SphereModel) (c : Coeffs) (t : ℚ)
    (i : ℕ) : ℕ :=
  countBlocked m c t 4 i

/-- Modelled from the spec: the AVX strategy (declared at
sac_model_sphere.h:263, body not under src/) processes 8 points per step
using 8-wide vector lanes, then the scalar tail. -/
def countWithinDistanceAVX (m : SphereModel) (c : Coeffs) (t : ℚ)
    (i : ℕ) : ℕ :=
  countBlocked m c t 8 i

/-- The hardware vector capability the dispatcher binds to (spec 4.3: none,
4-wide, or 8-wide; detected once, not a user-facing parameter). -/
inductive SimdCapability where
  | scalar : SimdCapability
  | sse : SimdCapability
  | avx : SimdCapability

/-- Modelled from the spec: countWithinDistance (declared at
sac_model_sphere.h:172, body not under src/) dispatches to the strategy the
detected capability binds it to, starting from index 0. -/
def countWithinDistance (cap : SimdCapability) (m : SphereModel) (c : Coeffs)
    (t : ℚ) : ℕ :=
  match cap with
  | SimdCapability.scalar => countWithinDistanceStandard m c t 0
  | SimdCapability.sse => countWithinDistanceSSE m c t 0
  | SimdCapability.avx => countWithinDistanceAVX m c t 0

/-- Modelled from the spec: the selection loop underlying selectWithinDistance:
it walks the point set carrying the current index and appends the index of
every point whose residual is within the threshold. -/
def selectAux (pts : List Point3) (c : Coeffs) (t : ℚ) (i : ℕ) : List ℕ :=
  match pts with
  | [] => []
  | p :: rest =>
    if inlierB p c t then i :: selectAux rest c t (i + 1)
    else selectAux rest c t (i + 1)

/-- Modelled from the spec: selectWithinDistance (declared at
sac_model_sphere.h:161, body not under src/) returns the ascending list of
indices of the points whose residual is within the threshold (spec 4.3). -/
def selectWithinDistance (m : SphereModel) (c : Coeffs) (t : ℚ) : List ℕ :=
  selectAux m.input c t 0

/-- Modelled from the spec: doSamplesVerifyModel (declared at
sac_model_sphere.h:205, body not under src/) checks that every point
referenced by the index set has residual within the threshold (spec 4.6). -/
def doSamplesVerifyModel (m : SphereModel) (idx : List ℕ) (c : Coeffs)
    (t : ℚ) : Bool :=
  idx.all (fun j => inlierB (m.input.getD j point0) c t)

/-- Modelled from the spec: getDistancesToModel (declared at
sac_model_sphere.h:152, body not under src/) produces one residual per point
of the full point set, in point-set order (spec 4.2). -/
noncomputable def getDistancesToModel (m : SphereModel) (c : Coeffs) :
    List ℝ :=
  m.input.map (fun p => residual p c)

/-- Modelled from the spec: optimizeModelCoefficients (declared at
sac_model_sphere.h:182, body not under src/).  The inner nonlinear
least-squares solve (internal::optimizeModelCoefficientsSphere, declared at
line 56, also not under src/) is left open by the spec, so it is taken here
as a parameter returning some refined coefficients or none; with fewer than
4 inliers, or when the solve fails, the input coefficients are returned
unchanged (spec 4.4). -/
def optimizeModelCoefficients (solve : List Point3 → Coeffs → Option Coeffs)
    (m : SphereModel) (inliers : List ℕ) (guess : Coeffs) : Coeffs :=
  if inliers.length < 4 then guess
  else
    match solve (inliers.map (fun j => m.input.getD j point0)) guess with
    | none => guess
    | some c => c

/-- Modelled from the spec: the projection of one point onto the sphere
surface, center + radius * normalize(point - center) (spec 4.5). -/
noncomputable def projectPoint (c : Coeffs) (p : Point3) : PointR :=
  ⟨(c.cx : ℝ) + (c.radius : ℝ) *
      (((p.x : ℝ) - (c.cx : ℝ)) / Real.sqrt ((sqrDist p c : ℚ) : ℝ)),
   (c.cy : ℝ) + (c.radius : ℝ) *
      (((p.y : ℝ) - (c.cy : ℝ)) / Real.sqrt ((sqrDist p c : ℚ) : ℝ)),
   (c.cz : ℝ) + (c.radius : ℝ) *
      (((p.z : ℝ) - (c.cz : ℝ)) / Real.sqrt ((sqrDist p c : ℚ) : ℝ))⟩

/-- Modelled from the spec: projectPoints (declared at
sac_model_sphere.h:194, body not under src/) projects every point selected by
the inlier index list onto the sphere surface, in input order (spec 4.5). -/
noncomputable def projectPoints (m : SphereModel) (inliers : List ℕ)
    (c : Coeffs) : List PointR :=
  inliers.map (fun j => projectPoint c (m.input.getD j point0))

/-- Euclidean distance from a projected point to the sphere center. -/
noncomputable def distToCenter (q : PointR) (c : Coeffs) : ℝ :=
  Real.sqrt ((q.x - (c.cx : ℝ)) ^ 2 + (q.y - (c.cy : ℝ)) ^ 2 +
    (q.z - (c.cz : ℝ)) ^ 2)

/-- Modelled from the spec: the base-class validity check
SampleConsensusModel::isModelValid (not under src/), which the spec describes
as rejecting coefficient vectors with non-finite values; in this exact
rational embedding every value is finite (and the coefficient count is 4 by
construction), so the check accepts every coefficient vector. -/
def baseIsModelValid (_c : Coeffs) : Bool := true

/-- Translated from sac_model_sphere.h lines 220-232: reject when the base
check fails; reject when radius_min is set (differs from the -DBL_MAX
sentinel) and the radius coefficient is below it; reject when radius_max is
set (differs from the DBL_MAX sentinel) and the radius coefficient is above
it; otherwise accept. -/
def isModelValid (m : SphereModel) (c : Coeffs) : Bool :=
  if baseIsModelValid c = false then false
  else if m.radius_min ≠ -dblMax ∧ c.radius < m.radius_min then false
  else if m.radius_max ≠ dblMax ∧ c.radius > m.radius_max then false
  else true

/- ### Theorems -/

/-- The squared distance is a sum of squares, hence nonnegative. -/
theorem sqrDist_nonneg (p : Point3) (c : Coeffs) : 0 ≤ sqrDist p c := by
  unfold sqrDist
  positivity

/-- Characterization of |sqrt S - r| <= T by polynomial inequalities, for
0 <= S. -/
theorem abs_sqrt_sub_le_iff (S r T : ℝ) (hS : 0 ≤ S) :
    |Real.sqrt S - r| ≤ T ↔
      (0 ≤ r + T ∧ S ≤ (r + T) ^ 2) ∧ (r - T ≤ 0 ∨ (r - T) ^ 2 ≤ S) := by
  rw [abs_sub_le_iff]
  constructor
  · rintro ⟨h1, h2⟩
    have hsr : Real.sqrt S ≤ r + T := by linarith
    have h0 : 0 ≤ r + T := le_trans (Real.sqrt_nonneg S) hsr
    refine ⟨⟨h0, ?_⟩, ?_⟩
    · calc S = Real.sqrt S ^ 2 := (Real.sq_sqrt hS).symm
        _ ≤ (r + T) ^ 2 := pow_le_pow_left₀ (Real.sqrt_nonneg S) hsr 2
    · by_cases hrt : r - T ≤ 0
      · exact Or.inl hrt
      · refine Or.inr ?_
        have hls : r - T ≤ Real.sqrt S := by linarith
        calc (r - T) ^ 2 ≤ Real.sqrt S ^ 2 :=
              pow_le_pow_left₀ (le_of_not_le hrt) hls 2
          _ = S := Real.sq_sqrt hS
  · rintro ⟨⟨h0, hle⟩, hor⟩
    have hup : Real.sqrt S ≤ r + T := by
      have h := Real.sqrt_le_sqrt hle
      rwa [Real.sqrt_sq h0] at h
    have hlo : r - T ≤ Real.sqrt S := by
      rcases hor with h | h
      · exact le_trans h (Real.sqrt_nonneg S)
      · have hh := Real.sqrt_le_sqrt h
        rw [Real.sqrt_sq_eq_abs] at hh
        exact le_trans (le_abs_self _) hh
    exact ⟨by linarith, by linarith⟩

/-- The executable inlier test agrees with the residual comparison of the
specification. -/
theorem inlierB_iff (p : Point3) (c : Coeffs) (t : ℚ) :
    inlierB p c t = true ↔ residual p c ≤ (t : ℝ) := by
  have hS : (0 : ℝ) ≤ ((sqrDist p c : ℚ) : ℝ) := by
    exact_mod_cast sqrDist_nonneg p c
  rw [residual, abs_sqrt_sub_le_iff _ _ _ hS]
  simp only [inlierB, Bool.and_eq_true, Bool.or_eq_true, decide_eq_true_eq]
  constructor
  · rintro ⟨⟨h1, h2⟩, h3⟩
    refine ⟨⟨?_, ?_⟩, ?_⟩
    · exact_mod_cast h1
    · exact_mod_cast h2
    · rcases h3 with h | h
      · exact Or.inl (by exact_mod_cast h)
      · exact Or.inr (by exact_mod_cast h)
  · rintro ⟨⟨h1, h2⟩, h3⟩
    refine ⟨⟨?_, ?_⟩, ?_⟩
    · exact_mod_cast h1
    · exact_mod_cast h2
    · rcases h3 with h | h
      · exact Or.inl (by exact_mod_cast h)
      · exact Or.inr (by exact_mod_cast h)

/-- The inlier test is monotone in the threshold. -/
theorem inlierB_mono (p : Point3) (c : Coeffs) {t1 t2 : ℚ} (h : t1 ≤ t2)
    (hin : inlierB p c t1 = true) : inlierB p c t2 = true := by
  rw [inlierB_iff] at hin ⊢
  calc residual p c ≤ (t1 : ℝ) := hin
    _ ≤ (t2 : ℝ) := by exact_mod_cast h

/-- Every blocked strategy computes the same count as the scalar strategy:
a w-block followed by the rest is exactly the scalar count of the suffix. -/
theorem countBlocked_eq (m : SphereModel) (c : Coeffs) (t : ℚ) (w i : ℕ) :
    countBlocked m c t w i = countWithinDistanceStandard m c t i := by
  rw [countBlocked]
  split
  · rename_i h
    rw [countBlocked_eq m c t w (i + w)]
    unfold countWithinDistanceStandard
    conv_rhs => rw [← List.take_append_drop w (m.input.drop i)]
    rw [List.countP_append, List.drop_drop]
  · rfl
termination_by m.input.length - i
decreasing_by omega

/-- Claim C1: for every point set, coefficients vector, threshold, and start
index, the three inlier-counting strategies agree — countWithinDistanceSSE
and countWithinDistanceAVX return the count of countWithinDistanceStandard —
and countWithinDistance equals that common value whichever strategy the
detected capability binds it to. -/
theorem claim_C1_strategies_agree (cap : SimdCapability) (m : SphereModel)
    (c : Coeffs) (t : ℚ) (i : ℕ) :
    countWithinDistanceSSE m c t i = countWithinDistanceStandard m c t i ∧
    countWithinDistanceAVX m c t i = countWithinDistanceStandard m c t i ∧
    countWithinDistance cap m c t = countWithinDistanceStandard m c t 0 := by
  refine ⟨countBlocked_eq m c t 4 i, countBlocked_eq m c t 8 i, ?_⟩
  cases cap
  · rfl
  · exact countBlocked_eq m c t 4 0
  · exact countBlocked_eq m c t 8 0

/-- The selection loop produces one index per inlier point. -/
theorem selectAux_length (pts : List Point3) (c : Coeffs) (t : ℚ) :
    ∀ i, (selectAux pts c t i).length = pts.countP (fun p => inlierB p c t) := by
  induction pts with
  | nil => intro i; simp [selectAux]
  | cons p rest ih =>
    intro i
    rw [selectAux, List.countP_cons]
    by_cases hp : inlierB p c t
    · rw [if_pos hp, List.length_cons, ih (i + 1), hp]
      simp
    · rw [if_neg hp, ih (i + 1)]
      simp [hp]

/-- Membership in the selection loop output: j is selected from start index i
exactly when j points at an inlier, j = i + offset into the suffix. -/
theorem mem_selectAux (pts : List Point3) (c : Coeffs) (t : ℚ) :
    ∀ i j, j ∈ selectAux pts c t i ↔
      ∃ k, k < pts.length ∧ j = i + k ∧
        inlierB (pts.getD k point0) c t = true := by
  induction pts with
  | nil => intro i j; simp [selectAux]
  | cons p rest ih =>
    intro i j
    rw [selectAux]
    constructor
    · intro hj
      by_cases hp : inlierB p c t
      · rw [if_pos hp] at hj
        rcases List.mem_cons.mp hj with rfl | hj2
        · exact ⟨0, by simp, by simp, by simpa using hp⟩
        · rcases (ih (i + 1) j).mp hj2 with ⟨k, hk, hjk, hin⟩
          exact ⟨k + 1, by simpa using hk, by omega, by simpa using hin⟩
      · rw [if_neg hp] at hj
        rcases (ih (i + 1) j).mp hj with ⟨k, hk, hjk, hin⟩
        exact ⟨k + 1, by simpa using hk, by omega, by simpa using hin⟩
    · rintro ⟨k, hk, rfl, hin⟩
      match k with
      | 0 =>
        have hp : inlierB p c t = true := by simpa using hin
        rw [if_pos hp]
        simp
      | Nat.succ k2 =>
        have hmem : i + 1 + k2 ∈ selectAux rest c t (i + 1) :=
          (ih (i + 1) (i + 1 + k2)).mpr
            ⟨k2, by simpa using hk, rfl, by simpa using hin⟩
        have heq : i + (k2 + 1) = i + 1 + k2 := by omega
        rw [heq]
        by_cases hp : inlierB p c t
        · rw [if_pos hp]
          exact List.mem_cons.mpr (Or.inr hmem)
        · rw [if_neg hp]
          exact hmem

/-- Every index produced by the selection loop is at least the start index. -/
theorem selectAux_lb (pts : List Point3) (c : Coeffs) (t : ℚ) :
    ∀ i j, j ∈ selectAux pts c t i → i ≤ j := by
  intro i j hj
  rcases (mem_selectAux pts c t i j).mp hj with ⟨k, _, rfl, _⟩
  omega

/-- The selection loop output is strictly ascending. -/
theorem selectAux_sorted (pts : List Point3) (c : Coeffs) (t : ℚ) :
    ∀ i, List.Sorted (· < ·) (selectAux pts c t i) := by
  induction pts with
  | nil => intro i; simp [selectAux]
  | cons p rest ih =>
    intro i
    rw [selectAux]
    by_cases hp : inlierB p c t
    · rw [if_pos hp]
      refine List.sorted_cons.mpr ⟨?_, ih (i + 1)⟩
      intro b hb
      have := selectAux_lb rest c t (i + 1) b hb
      omega
    · rw [if_neg hp]
      exact ih (i + 1)

/-- The selection loop is monotone in the threshold. -/
theorem selectAux_mono (pts : List Point3) (c : Coeffs) {t1 t2 : ℚ}
    (h : t1 ≤ t2) :
    ∀ i j, j ∈ selectAux pts c t1 i → j ∈ selectAux pts c t2 i := by
  intro i j hj
  rcases (mem_selectAux pts c t1 i j).mp hj with ⟨k, hk, hjk, hin⟩
  exact (mem_selectAux pts c t2 i j).mpr
    ⟨k, hk, hjk, inlierB_mono _ c h hin⟩

/-- Claim C2: for every capability binding, coefficients vector and threshold
t >= 0, countWithinDistance returns exactly the length of the index list
produced by selectWithinDistance, and the comparison is inclusive: an
in-range point whose residual equals t exactly is selected as an inlier. -/
theorem claim_C2_count_eq_select_length (cap : SimdCapability)
    (m : SphereModel) (c : Coeffs) (t : ℚ) (ht : 0 ≤ t) :
    countWithinDistance cap m c t = (selectWithinDistance m c t).length ∧
    ∀ j, j < m.input.length → residual (m.input.getD j point0) c = (t : ℝ) →
      j ∈ selectWithinDistance m c t := by
  constructor
  · have hstd : countWithinDistance cap m c t =
        countWithinDistanceStandard m c t 0 := by
      cases cap
      · rfl
      · exact countBlocked_eq m c t 4 0
      · exact countBlocked_eq m c t 8 0
    rw [hstd, selectWithinDistance, selectAux_length m.input c t 0,
      countWithinDistanceStandard, List.drop_zero]
  · intro j hj hres
    refine (mem_selectAux m.input c t 0 j).mpr ⟨j, hj, by omega, ?_⟩
    exact (inlierB_iff _ c t).mpr (le_of_eq hres)

/-- Claim C2 witness: one point at distance 1 from a center with radius 2 and
threshold exactly 1 — the boundary point is selected and the count matches
the selection length. -/
theorem claim_C2_witness :
    (0 : ℚ) ≤ 1 ∧
    countWithinDistance SimdCapability.scalar
        ⟨[⟨1, 0, 0⟩], -dblMax, dblMax⟩ ⟨0, 0, 0, 2⟩ 1 =
      (selectWithinDistance ⟨[⟨1, 0, 0⟩], -dblMax, dblMax⟩ ⟨0, 0, 0, 2⟩
        1).length ∧
    0 ∈ selectWithinDistance ⟨[⟨1, 0, 0⟩], -dblMax, dblMax⟩ ⟨0, 0, 0, 2⟩ 1 := by
  have h := claim_C2_count_eq_select_length SimdCapability.scalar
    ⟨[⟨1, 0, 0⟩], -dblMax, dblMax⟩ ⟨0, 0, 0, 2⟩ 1 (by norm_num)
  refine ⟨by norm_num, h.1, h.2 0 (by simp) ?_⟩
  show residual ⟨1, 0, 0⟩ ⟨0, 0, 0, 2⟩ = ((1 : ℚ) : ℝ)
  rw [residual]
  have hs : ((sqrDist ⟨1, 0, 0⟩ ⟨0, 0, 0, 2⟩ : ℚ) : ℝ) = 1 := by
    norm_num [sqrDist]
  rw [hs, Real.sqrt_one]
  norm_num

/-- Claim C7: selectWithinDistance is monotone in the threshold — every index
selected at threshold t1 <= t2 is also selected at t2 — and each result lists
its indices in strictly ascending point-set order. -/
theorem claim_C7_select_monotone (m : SphereModel) (c : Coeffs)
    (t1 t2 : ℚ) (h : t1 ≤ t2) :
    (∀ j ∈ selectWithinDistance m c t1, j ∈ selectWithinDistance m c t2) ∧
    List.Sorted (· < ·) (selectWithinDistance m c t1) ∧
    List.Sorted (· < ·) (selectWithinDistance m c t2) := by
  refine ⟨?_, selectAux_sorted m.input c t1 0, selectAux_sorted m.input c t2 0⟩
  intro j hj
  exact selectAux_mono m.input c h 0 j hj

/-- Claim C7 witness: with points at distances 1 and 3 from the center and
radius 0, the index selected at threshold 1 is also selected at threshold 3,
and both selections are ascending. -/
theorem claim_C7_witness :
    (1 : ℚ) ≤ 3 ∧
    0 ∈ selectWithinDistance ⟨[⟨1, 0, 0⟩, ⟨0, 3, 0⟩], -dblMax, dblMax⟩
        ⟨0, 0, 0, 0⟩ 3 ∧
    List.Sorted (· < ·)
      (selectWithinDistance ⟨[⟨1, 0, 0⟩, ⟨0, 3, 0⟩], -dblMax, dblMax⟩
        ⟨0, 0, 0, 0⟩ 1) := by
  have h := claim_C7_select_monotone
    ⟨[⟨1, 0, 0⟩, ⟨0, 3, 0⟩], -dblMax, dblMax⟩ ⟨0, 0, 0, 0⟩ 1 3 (by norm_num)
  refine ⟨by norm_num, h.1 0 ?_, h.2.1⟩
  refine (mem_selectAux [⟨1, 0, 0⟩, ⟨0, 3, 0⟩] ⟨0, 0, 0, 0⟩ 1 0 0).mpr
    ⟨0, by norm_num, by norm_num, ?_⟩
  norm_num [inlierB, sqrDist]

/-- Claim C6: doSamplesVerifyModel returns true exactly when every point
referenced by the index set has residual |euclidean_distance(point, center) -
radius| within the threshold, and it returns true vacuously on an empty index
set. -/
theorem claim_C6_doSamplesVerifyModel (m : SphereModel) (idx : List ℕ)
    (c : Coeffs) (t : ℚ) :
    (doSamplesVerifyModel m idx c t = true ↔
      ∀ j ∈ idx, residual (m.input.getD j point0) c ≤ (t : ℝ)) ∧
    doSamplesVerifyModel m [] c t = true := by
  constructor
  · rw [doSamplesVerifyModel, List.all_eq_true]
    constructor
    · intro h j hj
      exact (inlierB_iff _ c t).mp (h j hj)
    · intro h j hj
      exact (inlierB_iff _ c t).mpr (h j hj)
  · rfl

/-- Claim C8: getDistancesToModel produces exactly one residual per point of
the point set, in point-set order, each equal to
|euclidean_distance(point, center) - radius|; no point is filtered out. -/
theorem claim_C8_distances (m : SphereModel) (c : Coeffs) :
    (getDistancesToModel m c).length = m.input.length ∧
    ∀ j, j < m.input.length →
      (getDistancesToModel m c).getD j 0 =
        residual (m.input.getD j point0) c := by
  refine ⟨List.length_map m.input _, ?_⟩
  intro j hj
  have hj2 : j < (getDistancesToModel m c).length := by
    rw [getDistancesToModel, List.length_map]
    exact hj
  rw [getDistancesToModel] at hj2 ⊢
  rw [List.getD_eq_getElem _ _ hj2, List.getElem_map,
    List.getD_eq_getElem _ _ hj]

/-- Claim C8 witness: a one-point set at the center of a unit sphere yields
the single residual |0 - 1| = 1. -/
theorem claim_C8_witness :
    (getDistancesToModel ⟨[⟨0, 0, 0⟩], -dblMax, dblMax⟩
        ⟨0, 0, 0, 1⟩).length = 1 ∧
    (getDistancesToModel ⟨[⟨0, 0, 0⟩], -dblMax, dblMax⟩
        ⟨0, 0, 0, 1⟩).getD 0 0 = residual ⟨0, 0, 0⟩ ⟨0, 0, 0, 1⟩ := by
  have h := claim_C8_distances ⟨[⟨0, 0, 0⟩], -dblMax, dblMax⟩ ⟨0, 0, 0, 1⟩
  exact ⟨h.1, h.2 0 (by simp)⟩

/-- Claim C5: optimizeModelCoefficients returns the initial-guess coefficients
unchanged whenever the inlier list has fewer than 4 elements or the inner
nonlinear solve fails; the return type carries no error signal. -/
theorem claim_C5_optimize_fallback
    (solve : List Point3 → Coeffs → Option Coeffs) (m : SphereModel)
    (inliers : List ℕ) (guess : Coeffs) :
    (inliers.length < 4 →
      optimizeModelCoefficients solve m inliers guess = guess) ∧
    (solve (inliers.map (fun j => m.input.getD j point0)) guess = none →
      optimizeModelCoefficients solve m inliers guess = guess) := by
  constructor
  · intro h
    rw [optimizeModelCoefficients, if_pos h]
  · intro h
    rw [optimizeModelCoefficients]
    split
    · rfl
    · rw [h]

/-- Claim C5 witness: a 3-element inlier list (and a failing solver) leaves
the guess coefficients unchanged. -/
theorem claim_C5_witness :
    ([0, 1, 2] : List ℕ).length < 4 ∧
    optimizeModelCoefficients (fun _ _ => none)
        ⟨[], -dblMax, dblMax⟩ [0, 1, 2] ⟨1, 2, 3, 4⟩ = ⟨1, 2, 3, 4⟩ := by
  have h := claim_C5_optimize_fallback (fun _ _ => none)
    ⟨[], -dblMax, dblMax⟩ [0, 1, 2] ⟨1, 2, 3, 4⟩
  exact ⟨by norm_num, h.1 (by norm_num)⟩

/-- Claim C3: for coefficients passing the base validity check, isModelValid
returns false exactly when the radius coefficient violates a configured
bound — below radius_min or above radius_max — an unset (sentinel) bound
imposing no constraint; in particular with bounds (0.5, 2.0) a radius of 3.0
is rejected. -/
theorem claim_C3_isModelValid (m : SphereModel) (c : Coeffs)
    (hbase : baseIsModelValid c = true) :
    (isModelValid m c = false ↔
      (m.radius_min ≠ -dblMax ∧ c.radius < m.radius_min) ∨
      (m.radius_max ≠ dblMax ∧ c.radius > m.radius_max)) ∧
    isModelValid ⟨m.input, 1/2, 2⟩ ⟨c.cx, c.cy, c.cz, 3⟩ = false := by
  constructor
  · simp only [isModelValid, baseIsModelValid]
    split_ifs with h1 h2 h3 <;> simp_all
  · simp only [isModelValid, baseIsModelValid]
    rw [if_neg (by simp), if_neg (by norm_num [dblMax]), if_pos]
    constructor
    · norm_num [dblMax]
    · norm_num

/-- Claim C3 witness: the characterization instantiated at bounds (0.5, 2.0)
and radius 3, which the bound check rejects. -/
theorem claim_C3_witness :
    baseIsModelValid ⟨0, 0, 0, 3⟩ = true ∧
    isModelValid ⟨[], 1 / 2, 2⟩ ⟨0, 0, 0, 3⟩ = false := by
  have h := claim_C3_isModelValid ⟨[], 1 / 2, 2⟩ ⟨0, 0, 0, 3⟩ rfl
  exact ⟨rfl, h.2⟩

/-- Claim C4 counterexample: the claim says a negative radius is always
invalid, but with both bounds unset (the sentinel values) the code accepts
radius -1: isModelValid returns true, not false. -/
theorem claim_C4_counterexample :
    isModelValid ⟨[], -dblMax, dblMax⟩ ⟨0, 0, 0, -1⟩ = true := by
  simp [isModelValid, baseIsModelValid]

/-- Claim C4 amended: isModelValid rejects a negative radius only when a
radius_min bound is configured (differs from the sentinel) and is at least 0;
with unset bounds a negative radius is accepted (the radius >= 0 invariant is
not enforced by isModelValid). -/
theorem claim_C4_amended (m : SphereModel) (c : Coeffs)
    (hneg : c.radius < 0) (hmin : m.radius_min ≠ -dblMax)
    (hbound : 0 ≤ m.radius_min) :
    isModelValid m c = false := by
  simp only [isModelValid, baseIsModelValid]
  rw [if_neg (by simp), if_pos ⟨hmin, lt_of_lt_of_le hneg hbound⟩]

/-- Claim C4 witness: radius -1 with a configured lower bound 0 is rejected. -/
theorem claim_C4_witness :
    (-1 : ℚ) < 0 ∧ (0 : ℚ) ≠ -dblMax ∧
    isModelValid ⟨[], 0, dblMax⟩ ⟨0, 0, 0, -1⟩ = false := by
  refine ⟨by norm_num, by norm_num [dblMax], ?_⟩
  exact claim_C4_amended ⟨[], 0, dblMax⟩ ⟨0, 0, 0, -1⟩ (by norm_num)
    (by norm_num [dblMax]) le_rfl

/-- Claim C10: a radius bound exactly equal to its sentinel value (-DBL_MAX
for the minimum, DBL_MAX for the maximum) is skipped entirely, so it imposes
no constraint; and only the radius component of the coefficients is compared
against the bounds — the center components never change the verdict. -/
theorem claim_C10_sentinel_bounds (m : SphereModel) (c : Coeffs)
    (x y z : ℚ) :
    (m.radius_min = -dblMax →
      (isModelValid m c = false ↔
        m.radius_max ≠ dblMax ∧ c.radius > m.radius_max)) ∧
    (m.radius_max = dblMax →
      (isModelValid m c = false ↔
        m.radius_min ≠ -dblMax ∧ c.radius < m.radius_min)) ∧
    isModelValid m ⟨x, y, z, c.radius⟩ = isModelValid m c := by
  refine ⟨?_, ?_, ?_⟩
  · intro hmin
    simp only [isModelValid, baseIsModelValid, hmin]
    split_ifs with h1 h2 h3 <;> simp_all
  · intro hmax
    simp only [isModelValid, baseIsModelValid, hmax]
    split_ifs with h1 h2 h3 <;> simp_all
  · simp only [isModelValid, baseIsModelValid]

/-- Claim C10 witness: with both bounds at their sentinel values, a model
with radius -3 is accepted (no constraint), and changing only the center
components does not change the verdict. -/
theorem claim_C10_witness :
    isModelValid ⟨[], -dblMax, dblMax⟩ ⟨5, 6, 7, -3⟩ =
      isModelValid ⟨[], -dblMax, dblMax⟩ ⟨0, 0, 0, -3⟩ ∧
    isModelValid ⟨[], -dblMax, dblMax⟩ ⟨0, 0, 0, -3⟩ = true := by
  have h := claim_C10_sentinel_bounds ⟨[], -dblMax, dblMax⟩ ⟨0, 0, 0, -3⟩ 5 6 7
  refine ⟨h.2.2, ?_⟩
  have h1 := h.1 rfl
  have hne : ¬ (isModelValid ⟨[], -dblMax, dblMax⟩ ⟨0, 0, 0, -3⟩ = false) := by
    rw [h1]
    simp
  cases hb : isModelValid ⟨[], -dblMax, dblMax⟩ ⟨0, 0, 0, -3⟩
  · exact absurd hb hne
  · rfl

/-- A point distinct from the center has positive squared distance to it. -/
theorem sqrDist_cast_pos (p : Point3) (c : Coeffs) (hp : sqrDist p c ≠ 0) :
    (0 : ℝ) < ((sqrDist p c : ℚ) : ℝ) := by
  have h1 : (0 : ℚ) ≤ sqrDist p c := sqrDist_nonneg p c
  exact_mod_cast lt_of_le_of_ne h1 (Ne.symm hp)

/-- The sum of the squared coordinate differences is the squared distance. -/
theorem sqrDist_cast_sum (p : Point3) (c : Coeffs) :
    ((p.x : ℝ) - c.cx) ^ 2 + ((p.y : ℝ) - c.cy) ^ 2 +
      ((p.z : ℝ) - c.cz) ^ 2 = ((sqrDist p c : ℚ) : ℝ) := by
  push_cast [sqrDist]
  ring

/-- A projected point lies exactly on the sphere surface: its distance to the
center equals the radius. -/
theorem projectPoint_on_surface (c : Coeffs) (p : Point3)
    (hp : sqrDist p c ≠ 0) (hr : 0 ≤ c.radius) :
    distToCenter (projectPoint c p) c = (c.radius : ℝ) := by
  have hS0 := sqrDist_cast_pos p c hp
  have hn : (0 : ℝ) < Real.sqrt ((sqrDist p c : ℚ) : ℝ) :=
    Real.sqrt_pos.mpr hS0
  have hn2 : Real.sqrt ((sqrDist p c : ℚ) : ℝ) ^ 2 =
      ((sqrDist p c : ℚ) : ℝ) := Real.sq_sqrt hS0.le
  have hsum := sqrDist_cast_sum p c
  rw [distToCenter]
  simp only [projectPoint]
  have key : ((c.cx : ℝ) + (c.radius : ℝ) *
        (((p.x : ℝ) - c.cx) / Real.sqrt ((sqrDist p c : ℚ) : ℝ)) -
        (c.cx : ℝ)) ^ 2 +
      ((c.cy : ℝ) + (c.radius : ℝ) *
        (((p.y : ℝ) - c.cy) / Real.sqrt ((sqrDist p c : ℚ) : ℝ)) -
        (c.cy : ℝ)) ^ 2 +
      ((c.cz : ℝ) + (c.radius : ℝ) *
        (((p.z : ℝ) - c.cz) / Real.sqrt ((sqrDist p c : ℚ) : ℝ)) -
        (c.cz : ℝ)) ^ 2 = (c.radius : ℝ) ^ 2 := by
    have hne : Real.sqrt ((sqrDist p c : ℚ) : ℝ) ≠ 0 := ne_of_gt hn
    field_simp
    linear_combination ((c.radius : ℝ) ^ 2) * hsum
  rw [key]
  exact Real.sqrt_sq (by exact_mod_cast hr)

/-- Projecting a point that already lies on the sphere surface returns the
same point. -/
theorem projectPoint_idem (c : Coeffs) (p : Point3)
    (hp : sqrDist p c ≠ 0)
    (hs : Real.sqrt ((sqrDist p c : ℚ) : ℝ) = (c.radius : ℝ)) :
    (projectPoint c p).x = (p.x : ℝ) ∧ (projectPoint c p).y = (p.y : ℝ) ∧
      (projectPoint c p).z = (p.z : ℝ) := by
  have hS0 := sqrDist_cast_pos p c hp
  have hn : (0 : ℝ) < Real.sqrt ((sqrDist p c : ℚ) : ℝ) :=
    Real.sqrt_pos.mpr hS0
  have hrpos : (0 : ℝ) < (c.radius : ℝ) := hs ▸ hn
  have hrne : (c.radius : ℝ) ≠ 0 := ne_of_gt hrpos
  refine ⟨?_, ?_, ?_⟩ <;>
    · simp only [projectPoint, hs]
      field_simp

/-- Claim C9: for every input index whose point does not coincide with the
sphere center (and nonnegative radius), the projected point
center + radius * normalize(point - center) lies exactly on the sphere
surface, projecting an already-on-surface point returns the same point, and
projectPoints projects exactly the points selected by the inlier index
list. -/
theorem claim_C9_project (m : SphereModel) (inliers : List ℕ) (c : Coeffs)
    (p : Point3) (hp : sqrDist p c ≠ 0) (hr : 0 ≤ c.radius) :
    distToCenter (projectPoint c p) c = (c.radius : ℝ) ∧
    (Real.sqrt ((sqrDist p c : ℚ) : ℝ) = (c.radius : ℝ) →
      (projectPoint c p).x = (p.x : ℝ) ∧ (projectPoint c p).y = (p.y : ℝ) ∧
        (projectPoint c p).z = (p.z : ℝ)) ∧
    projectPoints m inliers c =
      inliers.map (fun j => projectPoint c (m.input.getD j point0)) := by
  exact ⟨projectPoint_on_surface c p hp hr,
    fun hs => projectPoint_idem c p hp hs, rfl⟩

/-- Claim C9 witness: the point (2,0,0) on the sphere with center the origin
and radius 2 projects onto itself and its projection lies on the surface. -/
theorem claim_C9_witness :
    sqrDist ⟨2, 0, 0⟩ ⟨0, 0, 0, 2⟩ ≠ 0 ∧ (0 : ℚ) ≤ 2 ∧
    distToCenter (projectPoint ⟨0, 0, 0, 2⟩ ⟨2, 0, 0⟩) ⟨0, 0, 0, 2⟩ =
      ((2 : ℚ) : ℝ) ∧
    (projectPoint ⟨0, 0, 0, 2⟩ ⟨2, 0, 0⟩).x = ((2 : ℚ) : ℝ) := by
  have hp : sqrDist ⟨2, 0, 0⟩ (⟨0, 0, 0, 2⟩ : Coeffs) ≠ 0 := by
    norm_num [sqrDist]
  have hcast : ((sqrDist ⟨2, 0, 0⟩ (⟨0, 0, 0, 2⟩ : Coeffs) : ℚ) : ℝ) =
      2 ^ 2 := by
    norm_num [sqrDist]
  have hs : Real.sqrt ((sqrDist ⟨2, 0, 0⟩ (⟨0, 0, 0, 2⟩ : Coeffs) : ℚ) : ℝ) =
      (((⟨0, 0, 0, 2⟩ : Coeffs).radius : ℚ) : ℝ) := by
    rw [hcast, Real.sqrt_sq (by norm_num : (0 : ℝ) ≤ 2)]
    norm_num
  have h := claim_C9_project ⟨[], -dblMax, dblMax⟩ [] ⟨0, 0, 0, 2⟩ ⟨2, 0, 0⟩
    hp (by norm_num)
  exact ⟨hp, by norm_num, h.1, (h.2.1 hs).1⟩

end PCLSphere
